import Mathlib

/-!
Verification of the TwitchPlay IRC component
(`Source/TwitchPlay/Private/Components/TwitchIRCComponent.cpp` and
`Source/TwitchPlay/Public/Components/TwitchIRCComponent.h`).

Strings are modelled as `List Char` (the wire encoding is one byte per
character, see `ANSIBytesToString`).  The Unreal `FString` helpers used by
the component are embedded below with their engine semantics:
`ParseIntoArray`, `ParseIntoArrayLines` and `ParseIntoArrayWS` split on the
given delimiters culling empty segments, and `operator==` / `StartsWith` /
`Contains` compare case-insensitively by default.
-/

abbrev FStr := List Char

/-- ASCII lower-casing, as applied by `FString::ToLower` / the
case-insensitive comparison defaults on the characters appearing in this
protocol. -/
def lowerChar (c : Char) : Char :=
  if 'A' ≤ c ∧ c ≤ 'Z' then Char.ofNat (c.toNat + 32) else c

def toLowerStr (s : FStr) : FStr := s.map lowerChar

/-- Case-insensitive equality: the default of `FString::operator==`. -/
def ciEq (a b : FStr) : Bool := toLowerStr a == toLowerStr b

/-- Case-insensitive prefix test: the default of `FString::StartsWith`. -/
def startsWithCI (s pat : FStr) : Bool :=
  (toLowerStr pat).isPrefixOf (toLowerStr s)

/-- Substring occurrence test (`FString::Find(...) != INDEX_NONE`). -/
def containsSub (s pat : FStr) : Bool :=
  match s with
  | [] => pat.isPrefixOf []
  | _ :: rest => pat.isPrefixOf s || containsSub rest pat

/-- Case-insensitive substring test: the default of `FString::Contains`. -/
def containsCI (s pat : FStr) : Bool :=
  containsSub (toLowerStr s) (toLowerStr pat)

/-- Prepend a character to the first segment of a split result (the
"extend the current substring" move of `FString::ParseIntoArray`'s scan). -/
def consHead (c : Char) : List FStr → List FStr
  | [] => [[c]]
  | h :: t => (c :: h) :: t

/-- The scan of `FString::ParseIntoArray` for the line-ending delimiter
array `{"\r\n", "\r", "\n"}` used by `ParseIntoArrayLines`: at each
position the delimiters are tried in order, a match ends the current
segment.  Empty segments are culled afterwards (`parseIntoArrayLines`). -/
def splitLinesRaw : FStr → List FStr
  | [] => [[]]
  | '\r' :: '\n' :: rest => [] :: splitLinesRaw rest
  | '\r' :: rest => [] :: splitLinesRaw rest
  | '\n' :: rest => [] :: splitLinesRaw rest
  | c :: rest => consHead c (splitLinesRaw rest)

/-- The scan of `FString::ParseIntoArray` for a set of single-character
delimiters given by the predicate `p` (used for the `":"` delimiter and for
the whitespace delimiters of `ParseIntoArrayWS`). -/
def splitCharRaw (p : Char → Bool) : FStr → List FStr
  | [] => [[]]
  | c :: rest =>
    if p c then [] :: splitCharRaw p rest else consHead c (splitCharRaw p rest)

/-- Drop empty segments: the `InCullEmpty = true` default of the
`FString::ParseIntoArray` family. -/
def cullEmpty (l : List FStr) : List FStr := l.filter (· ≠ [])

def isLineTerm (c : Char) : Bool := c == '\r' || c == '\n'

def isColon (c : Char) : Bool := c == ':'

def isWSChar (c : Char) : Bool := c == ' ' || c == '\t' || c == '\r' || c == '\n'

/-- `message.ParseIntoArrayLines(message_lines)` (TwitchIRCComponent.cpp
line 353). -/
def parseIntoArrayLines (s : FStr) : List FStr := cullEmpty (splitLinesRaw s)

/-- `line.ParseIntoArray(message_parts, TEXT(":"))` (line 373). -/
def parseColon (s : FStr) : List FStr := cullEmpty (splitCharRaw isColon s)

/-- `message_parts[0].ParseIntoArrayWS(meta)` (line 383). -/
def parseWS (s : FStr) : List FStr := cullEmpty (splitCharRaw isWSChar s)

/-- `meta[0].Split(TEXT("!"), &sender_username, nullptr)` (line 397):
`sender_username` becomes the part before the first `!` when one occurs,
and is left at its initial empty value otherwise. -/
def splitBang (s : FStr) : FStr :=
  if s.contains '!' then s.takeWhile (fun c => c ≠ '!') else []

/-- `ETwitchConnectionMessage` (TwitchIRCComponent.h): the kinds of
connection-status events the worker enqueues for the facade. -/
inductive ETwitchConnectionMessage
  | CONNECTED
  | FAILED_TO_CONNECT
  | FAILED_TO_AUTHENTICATE
  | ERROR
  | MESSAGE
  | DISCONNECTED
deriving DecidableEq

abbrev TwitchConnectionPair := ETwitchConnectionMessage × FStr

/-- `ETwitchSendMessageType` (TwitchIRCComponent.h). -/
inductive ETwitchSendMessageType
  | CHAT_MESSAGE
  | JOIN_MESSAGE
deriving DecidableEq

/-- `FTwitchSendMessage` (TwitchIRCComponent.h): one outbound request on
the sending queue. -/
structure FTwitchSendMessage where
  type : ETwitchSendMessageType
  message : FStr
  channel : FStr
deriving DecidableEq

/-- The wire line written by `SendIRCMessage(message, channel)` (lines
250-269) on a connected socket: with a non-empty channel the message is
wrapped as a PRIVMSG, and a `"\n"` terminator is appended either way. -/
def formatIRC (message channel : FStr) : FStr :=
  (if channel = [] then message
   else "PRIVMSG #".data ++ channel ++ " :".data ++ message) ++ ['\n']

def pingLine : FStr := "PING :tmi.twitch.tv".data

def pongWire : FStr := formatIRC "PONG :tmi.twitch.tv".data []

/-- Classification of one decoded line by the body of the `ParseMessage`
loop (lines 359-427). -/
inductive LineAction
  | pong
  | chat (user text : FStr)
  | serverMsg (payload : FStr)
deriving DecidableEq

/-- `message_content` accumulation of lines 411-419: content starts as
`message_parts[1]` and every later part is appended with the splitting
`":"` added back. -/
def rejoinColon (first : FStr) (rest : List FStr) : FStr :=
  rest.foldl (fun acc p => acc ++ ':' :: p) first

/-- One iteration of the `ParseMessage` line loop (lines 359-427):
an exact (case-insensitive, the `FString::operator==` default) `PING` match
answers with a PONG; otherwise the line is split on `":"`, its first part
split on whitespace, the sender is derived before the first `!` for a
`PRIVMSG` line, and the line becomes either a chat message or a generic
server `MESSAGE` event. -/
def classifyLine (line : FStr) : LineAction :=
  if ciEq line pingLine then .pong
  else
    match parseColon line with
    | [] => .serverMsg line
    | p0 :: rest =>
      match parseWS p0 with
      | m0 :: m1 :: _ =>
        let sender := if ciEq m1 "PRIVMSG".data then splitBang m0 else []
        if sender = [] then .serverMsg line
        else
          match rest with
          | p1 :: ps => .chat sender (rejoinColon p1 ps)
          | [] => .serverMsg p0
      | _ => .serverMsg line

/-- The outputs accumulated by one `ParseMessage(message, usernames,
messages)` call as invoked from `Run` (line 177) on fresh arrays: the two
in/out arrays, the `MESSAGE` events enqueued on the connection queue, and
the wire lines (PONG replies) sent directly on the socket. -/
structure ParseOut where
  usernames : List FStr
  messages : List FStr
  events : List TwitchConnectionPair
  sends : List FStr
deriving DecidableEq

def emptyParseOut : ParseOut := ⟨[], [], [], []⟩

def parseStep (acc : ParseOut) (line : FStr) : ParseOut :=
  match classifyLine line with
  | .pong => { acc with sends := acc.sends ++ [pongWire] }
  | .chat u t =>
      { acc with messages := acc.messages ++ [t], usernames := acc.usernames ++ [u] }
  | .serverMsg p => { acc with events := acc.events ++ [(.MESSAGE, p)] }

/-- `FTwitchMessageReceiver::ParseMessage` (lines 348-428): split the
frame into lines and process each in order. -/
def parseMessage (frame : FStr) : ParseOut :=
  (parseIntoArrayLines frame).foldl parseStep emptyParseOut

/-- State of one `FTwitchMessageReceiver::Run` execution, together with
its externally observable trace: `channel` is the worker's joined-channel
field, `socketOpen` whether `ConnectionSocket` is non-null, `shouldExit`
the stop flag, `events` the connection queue contents, `wires` every line
written to the socket (in order), and `batches` the receiving-queue
contents (one `FTwitchReceiveMessages` blob per enqueue). -/
structure RunState where
  channel : FStr
  socketOpen : Bool
  shouldExit : Bool
  events : List TwitchConnectionPair
  wires : List FStr
  batches : List (List FStr × List FStr)
deriving DecidableEq

def errNoChannelMsg : FStr :=
  "Cannot send message. No channel specified, and not joined to a channel.".data

def lostConnMsg : FStr := "Lost connection to server".data

/-- One dequeued request processed by the send-drain loop of `Run`
(lines 186-218), on a connected socket.  Returns the updated joined
channel, the wire lines written, and the connection events enqueued. -/
def processSendMessage (channel : FStr) (m : FTwitchSendMessage) :
    FStr × List FStr × List TwitchConnectionPair :=
  match m.type with
  | .CHAT_MESSAGE =>
    if m.channel ≠ [] then (channel, [formatIRC m.message m.channel], [])
    else if channel ≠ [] then (channel, [formatIRC m.message channel], [])
    else (channel, [], [(.ERROR, errNoChannelMsg)])
  | .JOIN_MESSAGE =>
    ((m.channel),
      (if channel ≠ [] then [formatIRC ("PART #".data ++ channel) []] else []) ++
        (if m.channel ≠ [] then [formatIRC ("JOIN #".data ++ m.channel) []] else []),
      [])

/-- The `while(SendingQueue->Dequeue(sendMessage))` drain (lines 185-218)
over the list of requests pending this cycle. -/
def drainSends (channel : FStr) (msgs : List FTwitchSendMessage) :
    FStr × List FStr × List TwitchConnectionPair :=
  msgs.foldl
    (fun st m =>
      let r := processSendMessage st.1 m
      (r.1, st.2.1 ++ r.2.1, st.2.2 ++ r.2.2))
    (channel, [], [])

/-- The worker-visible environment of one iteration of the main `Run`
loop: the socket's reported connection state, the data returned by
`ReceiveFromConnection`, and the requests pending on the sending queue. -/
structure RunCycle where
  connected : Bool
  recv : FStr
  sends : List FTwitchSendMessage
deriving DecidableEq

/-- One iteration of the main `Run` loop (lines 169-228).  On a connected
socket the received frame (when non-empty) is parsed — enqueuing the blob
on the receiving queue when it contains messages — and the sending queue
is drained; on a lost connection a `DISCONNECTED` event is enqueued and
the exit flag set.  Once the loop guard fails the state is unchanged. -/
def stepCycle (st : RunState) (cyc : RunCycle) : RunState :=
  if st.socketOpen = true ∧ st.shouldExit = false then
    if cyc.connected then
      let po := if cyc.recv ≠ [] then parseMessage cyc.recv else emptyParseOut
      let dr := drainSends st.channel cyc.sends
      { st with
        channel := dr.1,
        events := st.events ++ po.events ++ dr.2.2,
        wires := st.wires ++ po.sends ++ dr.2.1,
        batches := st.batches ++ (if po.messages ≠ [] then [(po.usernames, po.messages)] else []) }
    else
      { st with events := st.events ++ [(.DISCONNECTED, lostConnMsg)], shouldExit := true }
  else st

/-- The welcome test of line 132: `StartsWith(":tmi.twitch.tv 001") &&
Contains(":Welcome, GLHF!")`, with the engine's case-insensitive
defaults. -/
def isWelcome (line : FStr) : Bool :=
  startsWithCI line ":tmi.twitch.tv 001".data &&
    containsCI line ":Welcome, GLHF!".data

inductive AuthOutcome
  | failed (st : RunState)
  | authed (st : RunState)
  | waiting (st : RunState)
deriving DecidableEq

/-- The `while(WaitingForAuth)` loop (lines 127-167), fed the successive
results of `ReceiveFromConnection`: empty results only sleep; the first
non-empty line either fails authentication (close the socket, enqueue
`FAILED_TO_AUTHENTICATE` with the line, return from `Run`) or emits
`CONNECTED` and sends the JOIN for a configured channel.  `waiting` marks
a receive script exhausted with the flag still set (the thread would still
be polling). -/
def authPhase (st : RunState) : List FStr → AuthOutcome
  | [] => .waiting st
  | m :: rest =>
    if m = [] then authPhase st rest
    else if isWelcome m = false then
      .failed { st with
        socketOpen := false,
        events := st.events ++ [(.FAILED_TO_AUTHENTICATE, m)] }
    else
      let st2 := { st with events := st.events ++ [(.CONNECTED, m)] }
      if st2.channel ≠ [] then
        .authed { st2 with wires := st2.wires ++ [formatIRC ("JOIN #".data ++ st2.channel) []] }
      else .authed st2

/-- The teardown after the main loop (lines 230-245): on a still-open,
still-connected socket a PART for a joined channel is sent and a graceful
`DISCONNECTED` event enqueued; the socket is closed either way. -/
def epilogue (st : RunState) (finalConnected : Bool) : RunState :=
  if st.socketOpen then
    let st2 :=
      if finalConnected then
        let st1 :=
          if st.channel ≠ [] then
            { st with wires := st.wires ++ [formatIRC ("PART #".data ++ st.channel) []] }
          else st
        { st1 with events := st1.events ++ [(.DISCONNECTED, "Diconnected by request gracefully".data)] }
      else st
    { st2 with socketOpen := false }
  else st

/-- Worker state at the top of the authentication wait: socket opened and
connected, PASS/NICK sent successfully (lines 58-125), channel as stored
by `StartConnection`. -/
def initialState (channel : FStr) : RunState :=
  ⟨channel, true, false, [], [], []⟩

/-- `FTwitchMessageReceiver::Run` from the start of the authentication
wait (line 127) to thread exit, driven by the auth-phase receive script,
the main-loop cycle script, and the socket state sampled by the teardown.
A failed authentication returns from `Run` at once: no main-loop cycle and
no teardown runs.  Socket sends are modelled as succeeding while the
socket is open and connected. -/
def runReceiver (channel : FStr) (authRecvs : List FStr) (cycles : List RunCycle)
    (finalConnected : Bool) : RunState :=
  match authPhase (initialState channel) authRecvs with
  | .failed st => st
  | .waiting st => st
  | .authed st => epilogue (cycles.foldl stepCycle st) finalConnected

/-- `FTwitchMessageReceiver::PullMessages` (lines 280-291): drain the
receiving queue, appending each blob's usernames and messages. -/
def pullMessages (queue : List (List FStr × List FStr)) : List FStr × List FStr :=
  queue.foldl (fun acc b => (acc.1 ++ b.1, acc.2 ++ b.2)) ([], [])

/-- The receiving-queue contents produced by parsing a sequence of frames
in the main loop: one blob per frame whose parse yielded messages
(lines 176-181). -/
def enqueueRun (frames : List FStr) : List (List FStr × List FStr) :=
  (frames.map (fun f => ((parseMessage f).usernames, (parseMessage f).messages))).filter
    (fun b => b.2 ≠ [])

/-- The (sender, text) pairs of the chat-classified lines of a frame, in
line order. -/
def chatPairs (frame : FStr) : List (FStr × FStr) :=
  (parseIntoArrayLines frame).filterMap (fun l =>
    match classifyLine l with
    | .chat u t => some (u, t)
    | _ => none)

/-- The configuration captured by `StartConnection` (lines 32-39):
`Username` and `Channel` are lower-cased, `Oauth` stored as-is. -/
structure ReceiverInit where
  oauth : FStr
  username : FStr
  channel : FStr
deriving DecidableEq

/-- Facade state of `UTwitchIRCComponent`: the optional worker
(`TwitchMessageReceiver`) and whether the component tick is enabled. -/
structure FacadeState where
  receiver : Option ReceiverInit
  tickEnabled : Bool
deriving DecidableEq

/-- Result of a `Connect` call: the facade state afterwards, the
connection events broadcast during the call, and whether a worker
was created and started. -/
structure ConnectOut where
  state : FacadeState
  broadcasts : List TwitchConnectionPair
  workerCreated : Bool
deriving DecidableEq

def alreadyConnectedMsg : FStr := "Already connected / connecting / pending!".data

def invalidParamsMsg : FStr := "Invalid connection parameters. Check your strings.".data

/-- `UTwitchIRCComponent::Connect` (lines 489-507): an existing receiver
or empty oauth/username broadcast one `ERROR` and return before anything
is created; otherwise a receiver is created, `StartConnection` stores the
(lower-cased) configuration and spawns the thread, and ticking starts. -/
def connectFacade (st : FacadeState) (oauth username channel : FStr) : ConnectOut :=
  if st.receiver.isSome then
    ⟨st, [(.ERROR, alreadyConnectedMsg)], false⟩
  else if oauth = [] ∨ username = [] then
    ⟨st, [(.ERROR, invalidParamsMsg)], false⟩
  else
    ⟨⟨some ⟨oauth, toLowerStr username, toLowerStr channel⟩, true⟩, [], true⟩

/-- Modelled from the spec: §4.4 RateLimitedSender.  The rate-limited send
loop belongs to the second IRC-component revision whose implementation
file is not under the provided sources — only its state fields
(`AccumulationTime`, `TimeBetweenMessages`, `NextSendMessageTime` in
`TwitchIRCComponent.h`) are declared there.  Following the spec's words:
an accumulated time budget and a configured minimum interval between chat
sends; a chat request arriving before the interval elapses is deferred
(not dropped) until the next eligible cycle; protocol control lines are
never gated by the timer.  Time is modelled in abstract ticks. -/
inductive SendReq
  | chat (text : FStr)
  | control (line : FStr)
deriving DecidableEq

def SendReq.isChat : SendReq → Bool
  | .chat _ => true
  | .control _ => false

/-- Modelled from the spec: the rate limiter's worker-side state. -/
structure LimiterState where
  acc : Nat
  nextSend : Nat
  interval : Nat
  pending : List SendReq
deriving DecidableEq

/-- Modelled from the spec: drain the pending queue at accumulated time
`acc`.  A control request is dispatched unconditionally; a chat request is
dispatched only once the accumulated time reaches the next eligible send
time, which then advances by the configured interval; an ineligible chat
request stops the drain, deferring it and everything behind it.  Returns
the next-send time, the dispatches (tagged with their dispatch time) and
the deferred remainder. -/
def drainGo (acc interval : Nat) (nextSend : Nat) :
    List SendReq → Nat × List (Nat × SendReq) × List SendReq
  | [] => (nextSend, [], [])
  | r :: rest =>
    match r with
    | .control _ =>
      let o := drainGo acc interval nextSend rest
      (o.1, (acc, r) :: o.2.1, o.2.2)
    | .chat _ =>
      if nextSend ≤ acc then
        let o := drainGo acc interval (acc + interval) rest
        (o.1, (acc, r) :: o.2.1, o.2.2)
      else (nextSend, [], r :: rest)

/-- Modelled from the spec: one worker cycle — advance the accumulated
time by `dt`, append the newly arrived requests, and drain. -/
def limiterCycle (st : LimiterState) (dt : Nat) (arrivals : List SendReq) :
    LimiterState × List (Nat × SendReq) :=
  let acc := st.acc + dt
  let o := drainGo acc st.interval st.nextSend (st.pending ++ arrivals)
  (⟨acc, o.1, st.interval, o.2.2⟩, o.2.1)

/-- Modelled from the spec: run the rate limiter over a trace of cycles,
each with its elapsed time and arriving requests. -/
def runLimiter (st : LimiterState) : List (Nat × List SendReq) → LimiterState × List (Nat × SendReq)
  | [] => (st, [])
  | c :: cs =>
    let o := limiterCycle st c.1 c.2
    let r := runLimiter o.1 cs
    (r.1, o.2 ++ r.2)

def initLimiter (interval : Nat) : LimiterState := ⟨0, 0, interval, []⟩

/-- Chat dispatch timestamps of a limiter dispatch list, in order. -/
def chatTimes (ds : List (Nat × SendReq)) : List Nat :=
  (ds.filter (fun d => d.2.isChat)).map Prod.fst

-- A few concrete sanity checks of the FString embedding.
example : parseIntoArrayLines "a\r\nb\n\nc\r".data = ["a".data, "b".data, "c".data] := by decide
example : parseColon ":foo bar :a:b:c".data = ["foo bar ".data, "a".data, "b".data, "c".data] := by
  decide
example : parseWS " x\ty ".data = ["x".data, "y".data] := by decide
example : splitBang "foo!foo@x".data = "foo".data := by decide
example : splitBang "foo".data = [] := by decide
example : ciEq "PRIVMSG".data "PrivMsg".data = true := by decide
example : classifyLine ":foo!foo@foo.tmi.twitch.tv PRIVMSG #bar :a:b:c".data =
    .chat "foo".data "a:b:c".data := by decide
example : classifyLine "PING :tmi.twitch.tv".data = .pong := by decide
example : classifyLine ":tmi.twitch.tv 001 foo :Welcome, GLHF!".data =
    .serverMsg ":tmi.twitch.tv 001 foo :Welcome, GLHF!".data := by decide
example : classifyLine ":foo!a PRIVMSG".data = .serverMsg "foo!a PRIVMSG".data := by decide
example : parseMessage ":foo!a PRIVMSG".data =
    ⟨[], [], [(.MESSAGE, "foo!a PRIVMSG".data)], []⟩ := by decide


theorem consHead_ne_nil (c : Char) (l : List FStr) : consHead c l ≠ [] := by
  cases l <;> simp [consHead]

theorem consHead_eq_modifyHead (c : Char) (l : List FStr) (h : l ≠ []) :
    consHead c l = l.modifyHead (c :: ·) := by
  cases l with
  | nil => exact absurd rfl h
  | cons a t => rfl

theorem splitCharRaw_eq_splitOnP (p : Char → Bool) (s : FStr) :
    splitCharRaw p s = List.splitOnP p s := by
  induction s with
  | nil => rfl
  | cons c rest ih =>
    by_cases h : p c
    · simp [splitCharRaw, h, List.splitOnP_cons, ih]
    · simp only [splitCharRaw, h, if_neg, Bool.false_eq_true, ite_false, ih,
        List.splitOnP_cons,
        consHead_eq_modifyHead c _ (List.splitOnP_ne_nil p rest)]

theorem splitOnP_chars (p : Char → Bool) (s : FStr) :
    ∀ l ∈ List.splitOnP p s, ∀ c ∈ l, p c = false := by
  induction s with
  | nil =>
    intro l hl c hc
    simp [List.splitOnP_nil] at hl
    subst hl
    simp at hc
  | cons a rest ih =>
    intro l hl c hc
    by_cases h : p a
    · rw [List.splitOnP_cons, if_pos h] at hl
      rcases List.mem_cons.mp hl with hl | hl
      · subst hl; simp at hc
      · exact ih l hl c hc
    · rw [List.splitOnP_cons, if_neg h] at hl
      obtain ⟨h0, t0, he⟩ := List.exists_cons_of_ne_nil (List.splitOnP_ne_nil p rest)
      rw [he] at hl
      simp only [List.modifyHead, List.mem_cons] at hl
      rcases hl with hl | hl
      · subst hl
        rcases List.mem_cons.mp hc with hc | hc
        · subst hc; simpa using h
        · exact ih h0 (he ▸ List.mem_cons_self h0 t0) c hc
      · exact ih l (he ▸ List.mem_cons_of_mem h0 hl) c hc

theorem splitLinesRaw_head (s : FStr) :
    (splitLinesRaw s).head? = (List.splitOnP isLineTerm s).head? := by
  induction s using splitLinesRaw.induct with
  | case1 => rfl
  | case2 rest ih => simp [splitLinesRaw, List.splitOnP_cons, isLineTerm]
  | case3 rest h ih => simp [splitLinesRaw, List.splitOnP_cons, isLineTerm]
  | case4 rest ih => simp [splitLinesRaw, List.splitOnP_cons, isLineTerm]
  | case5 c rest h1 h2 h3 ih =>
    have hterm : isLineTerm c = false := by
      simp [isLineTerm]
      exact ⟨h2, h3⟩
    obtain ⟨h0, t0, he⟩ := List.exists_cons_of_ne_nil (List.splitOnP_ne_nil isLineTerm rest)
    obtain ⟨h1', t1', he'⟩ :
        ∃ hh tt, splitLinesRaw rest = hh :: tt := by
      cases hr : splitLinesRaw rest with
      | nil =>
        have : splitLinesRaw rest ≠ [] := by
          induction rest using splitLinesRaw.induct <;>
            simp [splitLinesRaw, consHead_ne_nil]
        exact absurd hr this
      | cons a b => exact ⟨a, b, rfl⟩
    rw [splitLinesRaw.eq_5 c rest h1 h2 h3, he']
    rw [he', he] at ih
    simp only [List.head?_cons, Option.some.injEq] at ih
    rw [List.splitOnP_cons, if_neg (by simp [hterm]), he]
    simp [consHead, ih]

theorem splitLinesRaw_ne_nil (s : FStr) : splitLinesRaw s ≠ [] := by
  induction s using splitLinesRaw.induct <;> simp [splitLinesRaw, consHead_ne_nil]

theorem splitLinesRaw_cull (s : FStr) :
    cullEmpty (splitLinesRaw s) = cullEmpty (List.splitOnP isLineTerm s) := by
  induction s using splitLinesRaw.induct with
  | case1 => rfl
  | case2 rest ih =>
    have e1 : splitLinesRaw ('\r' :: '\n' :: rest) = [] :: splitLinesRaw rest := rfl
    rw [e1, List.splitOnP_cons, List.splitOnP_cons]
    simpa [cullEmpty, isLineTerm] using ih
  | case3 rest h ih =>
    rw [splitLinesRaw.eq_3 rest h, List.splitOnP_cons]
    simpa [cullEmpty, isLineTerm] using ih
  | case4 rest ih =>
    have e1 : splitLinesRaw ('\n' :: rest) = [] :: splitLinesRaw rest := rfl
    rw [e1, List.splitOnP_cons]
    simpa [cullEmpty, isLineTerm] using ih
  | case5 c rest h1 h2 h3 ih =>
    have hterm : isLineTerm c = false := by
      simp [isLineTerm]
      exact ⟨h2, h3⟩
    obtain ⟨h0, t0, he⟩ := List.exists_cons_of_ne_nil (List.splitOnP_ne_nil isLineTerm rest)
    obtain ⟨hh, tt, he'⟩ := List.exists_cons_of_ne_nil (splitLinesRaw_ne_nil rest)
    have hheads : hh = h0 := by
      have := splitLinesRaw_head rest
      rw [he, he'] at this
      simpa using this
    rw [splitLinesRaw.eq_5 c rest h1 h2 h3, he', List.splitOnP_cons,
      if_neg (by simp [hterm]), he, hheads]
    rw [he, he', hheads] at ih
    simp only [consHead, List.modifyHead]
    have hcull : ∀ (X : List FStr), cullEmpty ((c :: h0) :: X) = (c :: h0) :: cullEmpty X := by
      intro X
      simp [cullEmpty]
    rw [hcull, hcull]
    congr 1
    by_cases hnil : h0 = []
    · subst hnil
      simpa [cullEmpty] using ih
    · have hc : h0 :: cullEmpty tt = h0 :: cullEmpty t0 := by
        simpa [cullEmpty, hnil] using ih
      injection hc

/-- C5: for every raw received frame, the line-decoding step
(`ParseIntoArrayLines`, line 353) produces exactly the non-empty
terminator-separated lines of the frame, in their original order, with no
line-terminator character retained in any produced line. -/
theorem C5_decode_frame_lines (s : FStr) :
    parseIntoArrayLines s = (List.splitOnP isLineTerm s).filter (· ≠ []) ∧
    ∀ l ∈ parseIntoArrayLines s, ∀ c ∈ l, isLineTerm c = false := by
  have h1 : parseIntoArrayLines s = (List.splitOnP isLineTerm s).filter (· ≠ []) :=
    splitLinesRaw_cull s
  refine ⟨h1, ?_⟩
  intro l hl c hc
  rw [h1] at hl
  exact splitOnP_chars isLineTerm s l (List.mem_of_mem_filter hl) c hc

theorem C5_decode_frame_lines_witness :
    parseIntoArrayLines "a\r\nb\n\nc\r".data =
      (List.splitOnP isLineTerm "a\r\nb\n\nc\r".data).filter (· ≠ []) ∧
    isLineTerm 'a' = false :=
  ⟨(C5_decode_frame_lines "a\r\nb\n\nc\r".data).1,
   (C5_decode_frame_lines "a\r\nb\n\nc\r".data).2 "a".data (by decide) 'a' (by decide)⟩

theorem rejoinColon_append (a b : FStr) (t : List FStr) :
    rejoinColon (a ++ b) t = a ++ rejoinColon b t := by
  induction t generalizing b with
  | nil => rfl
  | cons x xs ih =>
    show rejoinColon ((a ++ b) ++ ':' :: x) xs = a ++ rejoinColon (b ++ ':' :: x) xs
    rw [List.append_assoc]
    exact ih (b ++ ':' :: x)

theorem splitOnP_colon_rejoin (s : FStr) :
    ∀ h t, List.splitOnP isColon s = h :: t → rejoinColon h t = s := by
  induction s with
  | nil =>
    intro h t he
    rw [List.splitOnP_nil] at he
    cases he
    rfl
  | cons c rest ih =>
    intro h t he
    obtain ⟨h0, t0, he0⟩ := List.exists_cons_of_ne_nil (List.splitOnP_ne_nil isColon rest)
    by_cases hc : isColon c
    · rw [List.splitOnP_cons, if_pos hc, he0] at he
      have hcol : c = ':' := by simpa [isColon] using hc
      injection he with e1 e2
      subst e1
      subst e2
      subst hcol
      have hx : rejoinColon ([] : FStr) (h0 :: t0) = ':' :: rejoinColon h0 t0 := by
        show rejoinColon ([] ++ ':' :: h0) t0 = ':' :: rejoinColon h0 t0
        have := rejoinColon_append [':'] h0 t0
        simpa using this
      rw [hx, ih h0 t0 he0]
    · rw [List.splitOnP_cons, if_neg hc, he0] at he
      simp only [List.modifyHead] at he
      injection he with e1 e2
      subst e1
      subst e2
      have hx : rejoinColon (c :: h0) t0 = c :: rejoinColon h0 t0 := by
        have := rejoinColon_append [c] h0 t0
        simpa using this
      rw [hx, ih h0 t0 he0]

/-- C2: `ParseMessage` classifies the synthetic line
`:foo!foo@foo.tmi.twitch.tv PRIVMSG #bar :a:b:c` as a chat message with
sender `foo` and text `a:b:c`; and in general, for any content whose
colon-split produces no empty segment (no leading, trailing or doubled
delimiter — the split culls empty segments), the `":"` characters inside
the content are re-inserted by the rejoin loop and the content is
preserved verbatim in the output text. -/
theorem C2_colon_content_preserved :
    classifyLine ":foo!foo@foo.tmi.twitch.tv PRIVMSG #bar :a:b:c".data =
      .chat "foo".data "a:b:c".data ∧
    ∀ content : FStr,
      (∀ seg ∈ List.splitOnP isColon content, seg ≠ []) →
      classifyLine (":foo!foo@foo.tmi.twitch.tv PRIVMSG #bar :".data ++ content) =
        .chat "foo".data content := by
  constructor
  · decide
  · intro content hseg
    have hpre : (":foo!foo@foo.tmi.twitch.tv PRIVMSG #bar :".data : FStr) ++ content =
        ':' :: ("foo!foo@foo.tmi.twitch.tv PRIVMSG #bar ".data ++ ':' :: content) := by
      have he : (":foo!foo@foo.tmi.twitch.tv PRIVMSG #bar :".data : FStr) =
          ':' :: ("foo!foo@foo.tmi.twitch.tv PRIVMSG #bar ".data ++ [':']) := by decide
      rw [he]
      simp
    have hping : ciEq (":foo!foo@foo.tmi.twitch.tv PRIVMSG #bar :".data ++ content)
        pingLine = false := by
      simp only [ciEq, toLowerStr, beq_eq_false_iff_ne, ne_eq]
      intro h
      have hl := congrArg List.length h
      have h1 : ((":foo!foo@foo.tmi.twitch.tv PRIVMSG #bar :".data : FStr)).length = 41 := by
        decide
      have h2 : (pingLine.map lowerChar).length = 19 := by decide
      simp only [List.length_map, List.length_append, h1, h2] at hl
      omega
    obtain ⟨p1, ps, hc⟩ := List.exists_cons_of_ne_nil (List.splitOnP_ne_nil isColon content)
    have hcolon : parseColon (":foo!foo@foo.tmi.twitch.tv PRIVMSG #bar :".data ++ content) =
        "foo!foo@foo.tmi.twitch.tv PRIVMSG #bar ".data :: p1 :: ps := by
      simp only [parseColon, splitCharRaw_eq_splitOnP, hpre]
      rw [List.splitOnP_cons, if_pos (by decide),
        List.splitOnP_first isColon _ (by decide) ':' (by decide) content, hc]
      have hfil : cullEmpty (p1 :: ps) = p1 :: ps := by
        apply List.filter_eq_self.mpr
        intro a ha
        simpa using hseg a (by rw [hc]; exact ha)
      have hstep : cullEmpty (([] : FStr) ::
          ("foo!foo@foo.tmi.twitch.tv PRIVMSG #bar ".data : FStr) :: p1 :: ps) =
          "foo!foo@foo.tmi.twitch.tv PRIVMSG #bar ".data :: cullEmpty (p1 :: ps) := by
        simp only [cullEmpty]
        rw [List.filter_cons_of_neg (by simp), List.filter_cons_of_pos (by decide)]
      rw [hstep, hfil]
    have hws : parseWS ("foo!foo@foo.tmi.twitch.tv PRIVMSG #bar ".data : FStr) =
        ["foo!foo@foo.tmi.twitch.tv".data, "PRIVMSG".data, "#bar".data] := by decide
    simp only [classifyLine, hping, Bool.false_eq_true, if_false, hcolon, hws]
    rw [if_neg (by decide)]
    rw [splitOnP_colon_rejoin content p1 ps hc]
    rw [if_pos (by decide)]
    have hbang : splitBang "foo!foo@foo.tmi.twitch.tv".data = "foo".data := by decide
    rw [hbang]

theorem parse_foldl (ls : List FStr) : ∀ acc : ParseOut,
    ls.foldl parseStep acc =
      ⟨acc.usernames ++ ls.filterMap (fun l => match classifyLine l with
          | .chat u _ => some u
          | _ => none),
       acc.messages ++ ls.filterMap (fun l => match classifyLine l with
          | .chat _ t => some t
          | _ => none),
       acc.events ++ ls.filterMap (fun l => match classifyLine l with
          | .serverMsg p => some ((ETwitchConnectionMessage.MESSAGE, p) : TwitchConnectionPair)
          | _ => none),
       acc.sends ++ ls.filterMap (fun l => match classifyLine l with
          | .pong => some pongWire
          | _ => none)⟩ := by
  induction ls with
  | nil => intro acc; simp
  | cons l rest ih =>
    intro acc
    rw [List.foldl_cons, ih]
    cases h : classifyLine l <;>
      simp [parseStep, h, List.filterMap_cons]

theorem parseMessage_spec (frame : FStr) :
    parseMessage frame =
      ⟨(parseIntoArrayLines frame).filterMap (fun l => match classifyLine l with
          | .chat u _ => some u
          | _ => none),
       (parseIntoArrayLines frame).filterMap (fun l => match classifyLine l with
          | .chat _ t => some t
          | _ => none),
       (parseIntoArrayLines frame).filterMap (fun l => match classifyLine l with
          | .serverMsg p => some ((ETwitchConnectionMessage.MESSAGE, p) : TwitchConnectionPair)
          | _ => none),
       (parseIntoArrayLines frame).filterMap (fun l => match classifyLine l with
          | .pong => some pongWire
          | _ => none)⟩ := by
  have h := parse_foldl (parseIntoArrayLines frame) emptyParseOut
  simpa [parseMessage, emptyParseOut] using h

theorem classify_not_pong (l : FStr) (hb : ciEq l pingLine = false) :
    classifyLine l ≠ .pong := by
  intro hc
  simp only [classifyLine, hb, Bool.false_eq_true, if_false] at hc
  repeat' split at hc
  all_goals exact LineAction.noConfusion hc

theorem classify_pong_iff (l : FStr) :
    classifyLine l = .pong ↔ ciEq l pingLine = true := by
  constructor
  · intro h
    by_contra hne
    exact classify_not_pong l (by simpa using hne) h
  · intro h
    simp [classifyLine, h]

theorem pong_filterMap (ls : List FStr) :
    ls.filterMap (fun l => match classifyLine l with
        | .pong => some pongWire
        | _ => none) =
      List.replicate (ls.countP (fun l => ciEq l pingLine)) pongWire := by
  induction ls with
  | nil => rfl
  | cons l rest ih =>
    by_cases h : ciEq l pingLine = true
    · have hp : classifyLine l = .pong := (classify_pong_iff l).mpr h
      simp [List.filterMap_cons, List.countP_cons, hp, h, ih, List.replicate_succ]
    · have hp : classifyLine l ≠ .pong := fun hc => h ((classify_pong_iff l).mp hc)
      have hb : ciEq l pingLine = false := by simpa using h
      cases hc : classifyLine l with
      | pong => exact absurd hc hp
      | chat u t => simp [List.filterMap_cons, List.countP_cons, hc, hb, ih]
      | serverMsg p => simp [List.filterMap_cons, List.countP_cons, hc, hb, ih]

/-- C3: every decoded line equal to `PING :tmi.twitch.tv` is classified as
a keep-alive ping (neither chat nor server message), and the parse of any
frame sends exactly one `PONG :tmi.twitch.tv` wire line per ping line
(equality being the `FString` case-insensitive default). -/
theorem C3_ping_pong :
    (∀ frame, (parseMessage frame).sends =
      List.replicate ((parseIntoArrayLines frame).countP (fun l => ciEq l pingLine)) pongWire) ∧
    classifyLine "PING :tmi.twitch.tv".data = .pong ∧
    pongWire = "PONG :tmi.twitch.tv\n".data := by
  refine ⟨fun frame => ?_, by decide, by decide⟩
  rw [parseMessage_spec]
  exact pong_filterMap (parseIntoArrayLines frame)

theorem classify_server_payload (l p : FStr) (h : classifyLine l = .serverMsg p) :
    p = l ∨ parseColon l = [p] := by
  by_cases hb : ciEq l pingLine = true
  · rw [classifyLine, if_pos hb] at h
    exact absurd h (by simp)
  · have hf : ciEq l pingLine = false := by simpa using hb
    cases hcol : parseColon l with
    | nil =>
      simp only [classifyLine, hf, Bool.false_eq_true, if_false, hcol,
        LineAction.serverMsg.injEq] at h
      exact Or.inl h.symm
    | cons p0 rest =>
      cases hws : parseWS p0 with
      | nil =>
        simp only [classifyLine, hf, Bool.false_eq_true, if_false, hcol, hws,
          LineAction.serverMsg.injEq] at h
        exact Or.inl h.symm
      | cons m0 ms =>
        cases ms with
        | nil =>
          simp only [classifyLine, hf, Bool.false_eq_true, if_false, hcol, hws,
            LineAction.serverMsg.injEq] at h
          exact Or.inl h.symm
        | cons m1 mrest =>
          simp only [classifyLine, hf, Bool.false_eq_true, if_false, hcol, hws] at h
          by_cases hs : (if ciEq m1 "PRIVMSG".data = true then splitBang m0 else []) = []
          · simp only [hs, if_true, LineAction.serverMsg.injEq] at h
            exact Or.inl h.symm
          · simp only [hs, if_false] at h
            cases rest with
            | nil =>
              simp only [LineAction.serverMsg.injEq] at h
              subst h
              exact Or.inr rfl
            | cons p1 ps => exact absurd h (by simp)

/-- C9 (amended): every decoded inbound line that is not classified as a
chat message and is not the keep-alive ping yields exactly one generic
server `MESSAGE` event, in line order — never dropped and never fatal;
the event carries the raw line, except in the no-content-segment branch
(line 425), where it carries the single delimiter-split part, i.e. the
raw line with its delimiter characters stripped by the split. -/
theorem C9_server_message_passthrough :
    (∀ frame, (parseMessage frame).events =
      (parseIntoArrayLines frame).filterMap (fun l => match classifyLine l with
        | .serverMsg p => some ((ETwitchConnectionMessage.MESSAGE, p) : TwitchConnectionPair)
        | _ => none)) ∧
    (∀ l p, classifyLine l = .serverMsg p → p = l ∨ parseColon l = [p]) := by
  refine ⟨fun frame => ?_, fun l p h => classify_server_payload l p h⟩
  rw [parseMessage_spec]

theorem C9_server_message_passthrough_witness :
    (parseMessage "JOIN #chan".data).events =
      (parseIntoArrayLines "JOIN #chan".data).filterMap (fun l => match classifyLine l with
        | .serverMsg p => some ((ETwitchConnectionMessage.MESSAGE, p) : TwitchConnectionPair)
        | _ => none) ∧
    ("JOIN #chan".data = "JOIN #chan".data ∨
      parseColon "JOIN #chan".data = ["JOIN #chan".data]) :=
  ⟨C9_server_message_passthrough.1 "JOIN #chan".data,
   C9_server_message_passthrough.2 "JOIN #chan".data "JOIN #chan".data (by decide)⟩

/-- C9 counterexample: the line `:foo!a PRIVMSG` has a derivable sender
and two metadata tokens but no content segment; the enqueued MESSAGE
event carries `foo!a PRIVMSG` — the first delimiter-split part — and not
the raw line `:foo!a PRIVMSG` as the claim states. -/
theorem C9_raw_line_counterexample :
    (parseMessage ":foo!a PRIVMSG".data).events =
      [(.MESSAGE, "foo!a PRIVMSG".data)] ∧
    "foo!a PRIVMSG".data ≠ ":foo!a PRIVMSG".data := by decide

theorem filterMap_chat_zip (ls : List FStr) :
    (ls.filterMap (fun l => match classifyLine l with
        | .chat u _ => some u
        | _ => none)).length =
      (ls.filterMap (fun l => match classifyLine l with
        | .chat _ t => some t
        | _ => none)).length ∧
    (ls.filterMap (fun l => match classifyLine l with
        | .chat u _ => some u
        | _ => none)).zip
      (ls.filterMap (fun l => match classifyLine l with
        | .chat _ t => some t
        | _ => none)) =
      ls.filterMap (fun l => match classifyLine l with
        | .chat u t => some (u, t)
        | _ => none) := by
  induction ls with
  | nil => exact ⟨rfl, rfl⟩
  | cons l rest ih =>
    cases h : classifyLine l with
    | pong => simpa [List.filterMap_cons, h] using ih
    | serverMsg p => simpa [List.filterMap_cons, h] using ih
    | chat u t =>
      refine ⟨?_, ?_⟩
      · simp [List.filterMap_cons, h, ih.1]
      · simp [List.filterMap_cons, h, List.zip_cons_cons, ih.2]

theorem parse_pairing (f : FStr) :
    (parseMessage f).usernames.length = (parseMessage f).messages.length ∧
    (parseMessage f).usernames.zip (parseMessage f).messages = chatPairs f := by
  rw [parseMessage_spec]
  exact filterMap_chat_zip (parseIntoArrayLines f)

theorem pullMessages_spec (q : List (List FStr × List FStr)) :
    pullMessages q = ((q.map Prod.fst).flatten, (q.map Prod.snd).flatten) := by
  suffices h : ∀ acc : List FStr × List FStr,
      q.foldl (fun acc b => (acc.1 ++ b.1, acc.2 ++ b.2)) acc =
        (acc.1 ++ (q.map Prod.fst).flatten, acc.2 ++ (q.map Prod.snd).flatten) by
    simpa [pullMessages] using h ([], [])
  induction q with
  | nil => intro acc; simp
  | cons b rest ih =>
    intro acc
    rw [List.foldl_cons, ih]
    simp

theorem pullMessages_filter (q : List (List FStr × List FStr))
    (h : ∀ b ∈ q, b.2 = [] → b.1 = []) :
    pullMessages (q.filter (fun b => b.2 ≠ [])) = pullMessages q := by
  rw [pullMessages_spec, pullMessages_spec]
  induction q with
  | nil => rfl
  | cons b rest ih =>
    have hrest : ∀ x ∈ rest, x.2 = [] → x.1 = [] :=
      fun x hx => h x (List.mem_cons_of_mem b hx)
    have ihr := ih hrest
    by_cases hb : b.2 = []
    · have hb1 : b.1 = [] := h b (List.mem_cons_self b rest) hb
      rw [List.filter_cons_of_neg (by simp [hb])]
      simp only [List.map_cons, List.flatten_cons, hb, hb1, List.nil_append]
      exact ihr
    · rw [List.filter_cons_of_pos (by simp [hb])]
      simp only [List.map_cons, List.flatten_cons]
      rw [Prod.mk.injEq] at ihr
      rw [Prod.mk.injEq, ihr.1, ihr.2]
      exact ⟨rfl, rfl⟩

theorem zip_flatten_pairs (q : List (List FStr × List FStr))
    (h : ∀ b ∈ q, b.1.length = b.2.length) :
    ((q.map Prod.fst).flatten).zip ((q.map Prod.snd).flatten) =
      (q.map (fun b => b.1.zip b.2)).flatten := by
  induction q with
  | nil => rfl
  | cons b rest ih =>
    simp only [List.map_cons, List.flatten_cons]
    rw [List.zip_append (h b (List.mem_cons_self b rest)),
      ih (fun x hx => h x (List.mem_cons_of_mem b hx))]

theorem flatten_length_eq (q : List (List FStr × List FStr))
    (h : ∀ b ∈ q, b.1.length = b.2.length) :
    ((q.map Prod.fst).flatten).length = ((q.map Prod.snd).flatten).length := by
  induction q with
  | nil => rfl
  | cons b rest ih =>
    simp only [List.map_cons, List.flatten_cons, List.length_append]
    rw [h b (List.mem_cons_self b rest), ih (fun x hx => h x (List.mem_cons_of_mem b hx))]

/-- C10: `ParseMessage` appends to the sender-username and message-text
arrays in lockstep, so the usernames and messages drained by
`PullMessages` across any sequence of parsed frames have equal length and
pair up, index by index, exactly as the chat-classified (sender, text)
pairs of the frames in FIFO order — the pairing the facade's
`TickComponent` delivers (it broadcasts `(messages[i], usernames[i])`
after `check(usernames.Num() == messages.Num())`). -/
theorem C10_username_message_lockstep (frames : List FStr) :
    (pullMessages (enqueueRun frames)).1.length =
      (pullMessages (enqueueRun frames)).2.length ∧
    (pullMessages (enqueueRun frames)).1.zip (pullMessages (enqueueRun frames)).2 =
      (frames.map chatPairs).flatten := by
  have hq : ∀ b ∈ frames.map (fun f => ((parseMessage f).usernames, (parseMessage f).messages)),
      b.1.length = b.2.length := by
    intro b hb
    obtain ⟨f, _, rfl⟩ := List.mem_map.mp hb
    exact (parse_pairing f).1
  have hz : ∀ b ∈ frames.map (fun f => ((parseMessage f).usernames, (parseMessage f).messages)),
      b.2 = [] → b.1 = [] := by
    intro b hb h2
    obtain ⟨f, _, rfl⟩ := List.mem_map.mp hb
    have h2' : (parseMessage f).messages = [] := h2
    have hlen := (parse_pairing f).1
    rw [h2'] at hlen
    simp only [List.length_nil] at hlen
    exact List.length_eq_zero.mp hlen
  have hpull : pullMessages (enqueueRun frames) =
      pullMessages (frames.map (fun f => ((parseMessage f).usernames, (parseMessage f).messages))) := by
    rw [enqueueRun]
    exact pullMessages_filter _ hz
  rw [hpull, pullMessages_spec]
  constructor
  · exact flatten_length_eq _ hq
  · rw [zip_flatten_pairs _ hq]
    congr 1
    rw [List.map_map]
    apply List.map_congr_left
    intro f _
    exact (parse_pairing f).2

/-- C1: for every non-empty line received while waiting for
authentication that is not the welcome line (line 132's check, with the
engine's case-insensitive matching), the worker enqueues exactly one
`FAILED_TO_AUTHENTICATE` event carrying that line, closes the socket and
returns from `Run` — for every possible continuation of the receive
script and the main-loop cycle script, no further line is sent and no
further event is produced. -/
theorem C1_auth_failure_terminal (channel l : FStr) (pre rest : List FStr)
    (cycles : List RunCycle) (finalConnected : Bool)
    (hpre : ∀ e ∈ pre, e = []) (hl : l ≠ []) (hw : isWelcome l = false) :
    runReceiver channel (pre ++ l :: rest) cycles finalConnected =
      ⟨channel, false, false, [(.FAILED_TO_AUTHENTICATE, l)], [], []⟩ := by
  have hauth : ∀ p : List FStr, (∀ e ∈ p, e = []) →
      authPhase (initialState channel) (p ++ l :: rest) =
        .failed ⟨channel, false, false, [(.FAILED_TO_AUTHENTICATE, l)], [], []⟩ := by
    intro p
    induction p with
    | nil =>
      intro _
      rw [List.nil_append]
      simp only [authPhase]
      rw [if_neg hl, if_pos hw]
      simp [initialState]
    | cons e es ih =>
      intro hp
      have he : e = [] := hp e (List.mem_cons_self e es)
      rw [List.cons_append]
      simp only [authPhase]
      rw [if_pos he]
      exact ih (fun x hx => hp x (List.mem_cons_of_mem e hx))
  simp only [runReceiver, hauth pre hpre]

theorem C1_auth_failure_terminal_witness :
    runReceiver "chan".data [[], ":x failure".data, "later".data]
        [⟨true, [], []⟩] true =
      ⟨"chan".data, false, false, [(.FAILED_TO_AUTHENTICATE, ":x failure".data)], [], []⟩ :=
  C1_auth_failure_terminal "chan".data ":x failure".data [[]] ["later".data]
    [⟨true, [], []⟩] true (by decide) (by decide) (by decide)

/-- C6: a channel-change request (`JOIN_MESSAGE`, lines 206-217) while
channel `A` is joined sends `PART #A` before `JOIN #B`, in that order;
when the new channel is empty only the PART is sent; and the
joined-channel field is set to the new value in every case. -/
theorem C6_channel_change_order (A B msg : FStr) :
    ((processSendMessage A ⟨.JOIN_MESSAGE, msg, B⟩).1 = B) ∧
    (A ≠ [] → B ≠ [] →
      processSendMessage A ⟨.JOIN_MESSAGE, msg, B⟩ =
        (B, ["PART #".data ++ A ++ ['\n'], "JOIN #".data ++ B ++ ['\n']], [])) ∧
    (A ≠ [] → B = [] →
      processSendMessage A ⟨.JOIN_MESSAGE, msg, B⟩ =
        (B, ["PART #".data ++ A ++ ['\n']], [])) := by
  refine ⟨by simp [processSendMessage], ?_, ?_⟩
  · intro hA hB
    simp [processSendMessage, formatIRC, hA, hB]
  · intro hA hB
    simp [processSendMessage, formatIRC, hA, hB]

theorem C6_channel_change_order_witness :
    processSendMessage "a".data ⟨.JOIN_MESSAGE, [], "b".data⟩ =
      ("b".data, ["PART #".data ++ "a".data ++ ['\n'],
        "JOIN #".data ++ "b".data ++ ['\n']], []) ∧
    processSendMessage "a".data ⟨.JOIN_MESSAGE, [], []⟩ =
      ([], ["PART #".data ++ "a".data ++ ['\n']], []) :=
  ⟨(C6_channel_change_order "a".data "b".data []).2.1 (by decide) (by decide),
   (C6_channel_change_order "a".data [] []).2.2 (by decide) (by decide)⟩

/-- C7: a chat request with an empty explicit channel processed while no
channel is joined (lines 200-204) enqueues exactly one non-fatal `ERROR`
event, writes nothing to the socket, and leaves the loop state untouched
(socket open, exit flag clear): the run loop continues. -/
theorem C7_chat_no_channel_error (st : RunState) (msg : FStr)
    (hch : st.channel = []) (hso : st.socketOpen = true) (hse : st.shouldExit = false) :
    processSendMessage st.channel ⟨.CHAT_MESSAGE, msg, []⟩ =
      ([], [], [(.ERROR, errNoChannelMsg)]) ∧
    stepCycle st ⟨true, [], [⟨.CHAT_MESSAGE, msg, []⟩]⟩ =
      { st with events := st.events ++ [(.ERROR, errNoChannelMsg)] } := by
  constructor
  · simp [processSendMessage, hch]
  · simp [stepCycle, drainSends, processSendMessage, hch, hso, hse, emptyParseOut]

theorem C7_chat_no_channel_error_witness :
    processSendMessage (initialState []).channel ⟨.CHAT_MESSAGE, "hi".data, []⟩ =
      ([], [], [(.ERROR, errNoChannelMsg)]) ∧
    stepCycle (initialState []) ⟨true, [], [⟨.CHAT_MESSAGE, "hi".data, []⟩]⟩ =
      { initialState [] with events := [(.ERROR, errNoChannelMsg)] } := by
  have h := C7_chat_no_channel_error (initialState []) "hi".data rfl rfl rfl
  simpa [initialState] using h

/-- C8: `Connect` (lines 489-507) fails fast when a receiver already
exists or the oauth token or username is empty: exactly one `ERROR` event
is broadcast, no worker is created and the facade state is unchanged;
otherwise a single worker is created and started with the lower-cased
configuration and ticking enabled, with no error broadcast. -/
theorem C8_connect_fail_fast (st : FacadeState) (oauth username channel : FStr) :
    ((st.receiver.isSome ∨ oauth = [] ∨ username = []) →
      ((connectFacade st oauth username channel).state = st ∧
       (connectFacade st oauth username channel).workerCreated = false ∧
       ∃ m, (connectFacade st oauth username channel).broadcasts = [(.ERROR, m)])) ∧
    (st.receiver = none → oauth ≠ [] → username ≠ [] →
      connectFacade st oauth username channel =
        ⟨⟨some ⟨oauth, toLowerStr username, toLowerStr channel⟩, true⟩, [], true⟩) := by
  constructor
  · intro h
    by_cases hr : st.receiver.isSome
    · simp [connectFacade, hr]
    · have hcred : oauth = [] ∨ username = [] := by
        rcases h with h | h
        · exact absurd h hr
        · exact h
      simp [connectFacade, hr, hcred]
  · intro hr ho hu
    have hr' : ¬st.receiver.isSome = true := by simp [hr]
    simp [connectFacade, hr', ho, hu]

theorem C8_connect_fail_fast_witness :
    ((connectFacade ⟨none, false⟩ [] "user".data []).state = ⟨none, false⟩ ∧
     (connectFacade ⟨none, false⟩ [] "user".data []).workerCreated = false ∧
     ∃ m, (connectFacade ⟨none, false⟩ [] "user".data []).broadcasts = [(.ERROR, m)]) ∧
    connectFacade ⟨none, false⟩ "tok".data "User".data "Chan".data =
      ⟨⟨some ⟨"tok".data, toLowerStr "User".data, toLowerStr "Chan".data⟩, true⟩, [], true⟩ :=
  ⟨(C8_connect_fail_fast ⟨none, false⟩ [] "user".data []).1 (Or.inr (Or.inl rfl)),
   (C8_connect_fail_fast ⟨none, false⟩ "tok".data "User".data "Chan".data).2 rfl
     (by decide) (by decide)⟩

theorem chatTimes_cons_control (a : Nat) (line : FStr) (ds : List (Nat × SendReq)) :
    chatTimes ((a, SendReq.control line) :: ds) = chatTimes ds := by
  simp [chatTimes, SendReq.isChat]

theorem chatTimes_cons_chat (a : Nat) (text : FStr) (ds : List (Nat × SendReq)) :
    chatTimes ((a, SendReq.chat text) :: ds) = a :: chatTimes ds := by
  simp [chatTimes, SendReq.isChat]

theorem chatTimes_append (a b : List (Nat × SendReq)) :
    chatTimes (a ++ b) = chatTimes a ++ chatTimes b := by
  simp [chatTimes, List.filter_append]

theorem chatTimes_mem (ds : List (Nat × SendReq)) (t : Nat) (h : t ∈ chatTimes ds) :
    ∃ r, (t, r) ∈ ds := by
  simp only [chatTimes, List.mem_map, List.mem_filter] at h
  obtain ⟨⟨t2, r⟩, ⟨hmem, _⟩, rfl⟩ := h
  exact ⟨r, hmem⟩

theorem drainGo_spec (acc I : Nat) :
    ∀ (pending : List SendReq) (ns : Nat),
      (∀ x ∈ (drainGo acc I ns pending).2.1, x.1 = acc) ∧
      ns ≤ (drainGo acc I ns pending).1 ∧
      (∀ t ∈ chatTimes (drainGo acc I ns pending).2.1, t + I ≤ (drainGo acc I ns pending).1) ∧
      (chatTimes (drainGo acc I ns pending).2.1 ≠ [] → ns ≤ acc) ∧
      List.Chain' (fun a b => a + I ≤ b) (chatTimes (drainGo acc I ns pending).2.1) ∧
      (drainGo acc I ns pending).2.1.map Prod.snd ++ (drainGo acc I ns pending).2.2 = pending := by
  intro pending
  induction pending with
  | nil =>
    intro ns
    simp [drainGo, chatTimes]
  | cons r rest ih =>
    intro ns
    cases r with
    | control line =>
      obtain ⟨ih1, ih2, ih3, ih4, ih5, ih6⟩ := ih ns
      simp only [drainGo]
      refine ⟨?_, ih2, ?_, ?_, ?_, ?_⟩
      · intro x hx
        rcases List.mem_cons.mp hx with hx | hx
        · rw [hx]
        · exact ih1 x hx
      · intro t ht
        rw [chatTimes_cons_control] at ht
        exact ih3 t ht
      · intro hne
        rw [chatTimes_cons_control] at hne
        exact ih4 hne
      · rw [chatTimes_cons_control]
        exact ih5
      · simp only [List.map_cons]
        rw [List.cons_append, ih6]
    | chat text =>
      by_cases hle : ns ≤ acc
      · obtain ⟨ih1, ih2, ih3, ih4, ih5, ih6⟩ := ih (acc + I)
        simp only [drainGo, if_pos hle]
        refine ⟨?_, ?_, ?_, fun _ => hle, ?_, ?_⟩
        · intro x hx
          rcases List.mem_cons.mp hx with hx | hx
          · rw [hx]
          · exact ih1 x hx
        · exact le_trans hle (le_trans (Nat.le_add_right acc I) ih2)
        · intro t ht
          rw [chatTimes_cons_chat] at ht
          rcases List.mem_cons.mp ht with ht | ht
          · rw [ht]
            exact ih2
          · exact ih3 t ht
        · rw [chatTimes_cons_chat, List.chain'_cons']
          refine ⟨?_, ih5⟩
          intro h hh
          have hmem : h ∈ chatTimes (drainGo acc I (acc + I) rest).2.1 :=
            List.mem_of_mem_head? hh
          have hne : chatTimes (drainGo acc I (acc + I) rest).2.1 ≠ [] := by
            intro hemp
            rw [hemp] at hmem
            simp at hmem
          obtain ⟨rr, hrr⟩ := chatTimes_mem _ h hmem
          have heq : h = acc := ih1 (h, rr) hrr
          rw [heq]
          exact ih4 hne
        · simp only [List.map_cons]
          rw [List.cons_append, ih6]
      · simp only [drainGo, if_neg hle]
        exact ⟨by simp, le_refl ns, by simp [chatTimes], by simp [chatTimes],
          by simp [chatTimes], by simp⟩

theorem runLimiter_spec :
    ∀ (trace : List (Nat × List SendReq)) (st : LimiterState),
      List.Chain' (fun a b => a + st.interval ≤ b) (chatTimes (runLimiter st trace).2) ∧
      (∀ t ∈ chatTimes (runLimiter st trace).2,
        st.nextSend ≤ t ∧ t + st.interval ≤ (runLimiter st trace).1.nextSend) ∧
      st.nextSend ≤ (runLimiter st trace).1.nextSend ∧
      (runLimiter st trace).1.interval = st.interval ∧
      (runLimiter st trace).2.map Prod.snd ++ (runLimiter st trace).1.pending =
        st.pending ++ (trace.map Prod.snd).flatten := by
  intro trace
  induction trace with
  | nil =>
    intro st
    simp [runLimiter, chatTimes]
  | cons c cs ih =>
    intro st
    obtain ⟨d1, d2, d3, d4, d5, d6⟩ :=
      drainGo_spec (st.acc + c.1) st.interval (st.pending ++ c.2) st.nextSend
    obtain ⟨l1, l2, l3, l4, l5⟩ := ih
      ⟨st.acc + c.1, (drainGo (st.acc + c.1) st.interval st.nextSend (st.pending ++ c.2)).1,
        st.interval,
        (drainGo (st.acc + c.1) st.interval st.nextSend (st.pending ++ c.2)).2.2⟩
    have hrun : runLimiter st (c :: cs) =
        ((runLimiter ⟨st.acc + c.1,
            (drainGo (st.acc + c.1) st.interval st.nextSend (st.pending ++ c.2)).1,
            st.interval,
            (drainGo (st.acc + c.1) st.interval st.nextSend (st.pending ++ c.2)).2.2⟩ cs).1,
          (drainGo (st.acc + c.1) st.interval st.nextSend (st.pending ++ c.2)).2.1 ++
            (runLimiter ⟨st.acc + c.1,
              (drainGo (st.acc + c.1) st.interval st.nextSend (st.pending ++ c.2)).1,
              st.interval,
              (drainGo (st.acc + c.1) st.interval st.nextSend (st.pending ++ c.2)).2.2⟩ cs).2) := by
      rfl
    rw [hrun]
    dsimp only at l1 l2 l3 l4 l5 ⊢
    refine ⟨?_, ?_, ?_, l4, ?_⟩
    · rw [chatTimes_append, List.chain'_append]
      refine ⟨d5, l1, ?_⟩
      intro x hx y hy
      have hxm := List.mem_of_mem_getLast? hx
      have hym := List.mem_of_mem_head? hy
      have hx3 := d3 x hxm
      have hy2 := (l2 y hym).1
      exact le_trans hx3 hy2
    · intro t ht
      rw [chatTimes_append, List.mem_append] at ht
      rcases ht with ht | ht
      · have hne : chatTimes (drainGo (st.acc + c.1) st.interval st.nextSend
            (st.pending ++ c.2)).2.1 ≠ [] := by
          intro hemp
          rw [hemp] at ht
          simp at ht
        refine ⟨?_, ?_⟩
        · obtain ⟨rr, hrr⟩ := chatTimes_mem _ t ht
          have hta : t = st.acc + c.1 := d1 (t, rr) hrr
          rw [hta]
          exact d4 hne
        · exact le_trans (d3 t ht) l3
      · exact ⟨le_trans d2 (l2 t ht).1, (l2 t ht).2⟩
    · exact le_trans d2 l3
    · rw [List.map_append, List.append_assoc, l5, ← List.append_assoc, d6,
        List.map_cons, List.flatten_cons, List.append_assoc]

theorem drainGo_control_all (acc I ns : Nat) (pending : List SendReq)
    (h : ∀ r ∈ pending, r.isChat = false) :
    (drainGo acc I ns pending).2.2 = [] := by
  induction pending with
  | nil => simp [drainGo]
  | cons r rest ih =>
    cases r with
    | control line =>
      simp only [drainGo]
      exact ih (fun x hx => h x (List.mem_cons_of_mem _ hx))
    | chat text =>
      have := h (.chat text) (List.mem_cons_self _ _)
      simp [SendReq.isChat] at this

theorem runLimiter_control_all :
    ∀ (trace : List (Nat × List SendReq)) (st : LimiterState),
      st.pending = [] →
      (∀ r ∈ (trace.map Prod.snd).flatten, SendReq.isChat r = false) →
      (runLimiter st trace).1.pending = [] := by
  intro trace
  induction trace with
  | nil =>
    intro st hp _
    simpa [runLimiter] using hp
  | cons c cs ih =>
    intro st hp hctl
    have harr : ∀ r ∈ c.2, SendReq.isChat r = false := by
      intro r hr
      exact hctl r (by simp only [List.map_cons, List.flatten_cons, List.mem_append]; exact Or.inl hr)
    have hdrain : (drainGo (st.acc + c.1) st.interval st.nextSend (st.pending ++ c.2)).2.2 = [] := by
      apply drainGo_control_all
      intro r hr
      rw [hp, List.nil_append] at hr
      exact harr r hr
    have hrest : ∀ r ∈ (cs.map Prod.snd).flatten, SendReq.isChat r = false := by
      intro r hr
      apply hctl r
      simp only [List.map_cons, List.flatten_cons, List.mem_append]
      exact Or.inr hr
    exact ih _ hdrain hrest

/-- C4 (modelled from the spec, §4.4 RateLimitedSender): running the rate
limiter from its initial state, (1) consecutive chat dispatches are never
closer together than the configured minimum interval (their timestamps
form a chain spaced by at least `interval`); (2) no request is dropped —
the dispatched requests followed by the still-pending remainder are
exactly the arrivals, in FIFO order; (3) protocol control requests are
never gated by the timer: a trace of control requests alone drains
completely every cycle, leaving nothing deferred. -/
theorem C4_rate_limited_sender (interval : Nat) (trace : List (Nat × List SendReq)) :
    List.Chain' (fun a b => a + interval ≤ b)
      (chatTimes (runLimiter (initLimiter interval) trace).2) ∧
    (runLimiter (initLimiter interval) trace).2.map Prod.snd ++
        (runLimiter (initLimiter interval) trace).1.pending =
      (trace.map Prod.snd).flatten ∧
    ((∀ r ∈ (trace.map Prod.snd).flatten, SendReq.isChat r = false) →
      (runLimiter (initLimiter interval) trace).1.pending = []) := by
  obtain ⟨l1, _, _, _, l5⟩ := runLimiter_spec trace (initLimiter interval)
  refine ⟨l1, ?_, fun h => runLimiter_control_all trace (initLimiter interval) rfl h⟩
  simpa [initLimiter] using l5

theorem C4_rate_limited_sender_witness :
    (runLimiter (initLimiter 5)
        [(1, [SendReq.control "PONG :tmi.twitch.tv".data]),
         (1, [SendReq.control "JOIN #chan".data])]).1.pending = [] :=
  (C4_rate_limited_sender 5
    [(1, [SendReq.control "PONG :tmi.twitch.tv".data]),
     (1, [SendReq.control "JOIN #chan".data])]).2.2 (by decide)

theorem C2_colon_content_preserved_witness :
    classifyLine (":foo!foo@foo.tmi.twitch.tv PRIVMSG #bar :".data ++ "x:y:z".data) =
      .chat "foo".data "x:y:z".data :=
  C2_colon_content_preserved.2 "x:y:z".data (by decide)
